import Mathlib

/-!
Verification development for the resilient batch-enrichment pipeline and
statistics aggregator of the call-analysis repository.

The TypeScript sources are shallowly embedded: JavaScript strings are
modelled as `String`/`List Char`, thrown `Error` values as an explicit
`JsError` structure, asynchronous calls as explicit oracles
(`Nat → Except JsError α` giving the outcome of the n-th invocation),
and `setTimeout` delays as ghost data (a list of the delays that would
be slept, in order).
-/

namespace AiCall

/-- JS `a.includes(b)`: substring containment test. -/
def includesStr (a b : String) : Bool := decide (b.data <:+: a.data)

/-- Error value thrown by a provider call, as consumed by `retryWithBackoff`
(in the gemini/groq client module).  `status` models the optional numeric
`error.status` field, `message` the `error.message` string and `errorCode`
the optional `error.errorData.error.code` field. -/
structure JsError where
  status : Option Nat
  message : String
  errorCode : Option String
deriving Repr, DecidableEq

/-- The `status 400` + context-length-marker test of `retryWithBackoff`:
`error?.status === 400 && (error?.errorData?.error?.code === "context_length_exceeded"
|| error?.message?.includes("length") || error?.message?.includes("context"))`. -/
def isContextLength (e : JsError) : Bool :=
  e.status == some 400 &&
    (e.errorCode == some "context_length_exceeded" ||
     includesStr e.message "length" || includesStr e.message "context")

/-- The fresh `Error` thrown on the context-length branch of
`retryWithBackoff`; it carries no `status` field. -/
def tooLargeError : JsError :=
  ⟨none, "The data is too large to process. Please try with fewer calls or contact support.", none⟩

/-- Shallow embedding of `retryWithBackoff(fn, maxRetries, retryCount, logCallback)`.
`fn n` is the outcome of the invocation made with `retryCount = n`.  The first
component of the result is the ghost list of backoff delays (ms) slept before
each retry, in order; the second is the final outcome. -/
def retryWithBackoff (fn : Nat → Except JsError α) (maxRetries : Nat) (retryCount : Nat) :
    List Nat × Except JsError α :=
  match fn retryCount with
  | .ok v => ([], .ok v)
  | .error e =>
    if e.status == some 429 && decide (retryCount < maxRetries) then
      let d := min (5000 * 2 ^ retryCount) 90000
      let r := retryWithBackoff fn maxRetries (retryCount + 1)
      (d :: r.1, r.2)
    else if e.status == some 503 && decide (retryCount < maxRetries) then
      let d := min (10000 * 2 ^ retryCount) 180000
      let r := retryWithBackoff fn maxRetries (retryCount + 1)
      (d :: r.1, r.2)
    else if isContextLength e then
      ([], .error tooLargeError)
    else if e.status.any (fun s => 500 ≤ s && s < 600) && decide (retryCount < maxRetries) then
      let d := min (15000 * 2 ^ retryCount) 120000
      let r := retryWithBackoff fn maxRetries (retryCount + 1)
      (d :: r.1, r.2)
    else
      ([], .error e)
termination_by maxRetries - retryCount
decreasing_by all_goals (simp_all; omega)

/-- The `CategorizationResult` structure of the AI client module. -/
structure CategorizationResult where
  categories : List String
  sentiment : String
  summary : String
deriving Repr, DecidableEq

/-- The fallback result synthesized by `batchCategorizeCallsWithProgress`
when `categorizeCall` fails for one item:
`{categories: ["UNCATEGORIZED - API ERROR"], sentiment: "neutral",
summary: "Failed to analyze: " + (error.message || "Unknown error")}`. -/
def fallbackResult (e : JsError) : CategorizationResult :=
  ⟨["UNCATEGORIZED - API ERROR"], "neutral",
    "Failed to analyze: " ++ (if e.message = "" then "Unknown error" else e.message)⟩

/-- The fatal-abort test in the per-item catch block:
`error?.status === 429 && error.message?.includes("exceeded")`. -/
def isFatal (e : JsError) : Bool :=
  e.status == some 429 && includesStr e.message "exceeded"

/-- Whether the per-item outcome triggers the fatal batch abort. -/
def isFatalOutcome (o : Except JsError CategorizationResult) : Bool :=
  match o with
  | .error e => isFatal e
  | .ok _ => false

/-- The result recorded for one item: the successful result, or the fallback
synthesized in the catch block. -/
def itemResult (o : Except JsError CategorizationResult) : CategorizationResult :=
  match o with
  | .ok r => r
  | .error e => fallbackResult e

/-- Data carried by the `Error` thrown on fatal abort.  The source throws
`new Error("Rate limit exceeded after retries. Processed " + results.length +
"/" + calls.length + " calls. " + error.message)`; `processed` models the
`results.length` figure (taken after the fallback for the failing item was
pushed), `total` the `calls.length` figure, and `innerMessage` the message of
the underlying provider error. -/
structure BatchFatal where
  processed : Nat
  total : Nat
  innerMessage : String
deriving Repr, DecidableEq

/-- Observable outcome of one batch run: the internal `results` array, the
fatal error (if the batch threw), and a ghost count of `categorizeCall`
invocations issued. -/
structure BatchOut where
  results : List CategorizationResult
  fatal : Option BatchFatal
  providerCalls : Nat
deriving Repr, DecidableEq

/-- The `for` loop of `batchCategorizeCallsWithProgress`, walking the list of
remaining item indices with accumulated results `acc` and `k` provider calls
already issued (`n` is `calls.length`, quoted in the fatal error). -/
def batchAux (outcome : Nat → Except JsError CategorizationResult) (n : Nat) :
    List Nat → List CategorizationResult → Nat → BatchOut
  | [], acc, k => ⟨acc, none, k⟩
  | i :: rest, acc, k =>
    match outcome i with
    | .ok r => batchAux outcome n rest (acc ++ [r]) (k + 1)
    | .error e =>
      if isFatal e then
        ⟨acc ++ [fallbackResult e], some ⟨(acc ++ [fallbackResult e]).length, n, e.message⟩, k + 1⟩
      else batchAux outcome n rest (acc ++ [fallbackResult e]) (k + 1)

/-- Shallow embedding of `batchCategorizeCallsWithProgress`
(`for (let i = 0; i < calls.length; i++) ...`).  `outcome i` is the outcome
of the retry-wrapped `categorizeCall` for the item at index `i` and `n` is
`calls.length`. -/
def batchCategorizeCallsWithProgress (outcome : Nat → Except JsError CategorizationResult)
    (n : Nat) : BatchOut :=
  batchAux outcome n (List.range n) [] 0

/-- The `successCount` computation at the end of the batch:
`results.filter(r => !r.categories.includes("UNCATEGORIZED - API ERROR")).length`. -/
def successCount (rs : List CategorizationResult) : Nat :=
  (rs.filter (fun r => !(r.categories.contains "UNCATEGORIZED - API ERROR"))).length

/-- JS `String.prototype.trim` on a character sequence. -/
def trimChars (l : List Char) : List Char :=
  ((l.dropWhile Char.isWhitespace).reverse.dropWhile Char.isWhitespace).reverse

/-- The backtick character (code point 96). -/
def backtick : Char := Char.ofNat 96

/-- The literal part of the pattern in `.replace(/```json\n?/g, "")`. -/
def fenceJsonPat : List Char := [backtick, backtick, backtick, 'j', 's', 'o', 'n']

/-- The literal part of the pattern in `.replace(/```\n?/g, "")`. -/
def fencePat : List Char := [backtick, backtick, backtick]

/-- Fueled left-to-right global replacement of `pat` plus an optional
trailing newline by the empty string (the semantics of
`.replace(/PAT\n?/g, "")` for a literal `PAT`).  One character is consumed
per step, so `fuel = l.length` always suffices. -/
def stripPatternGo (pat : List Char) : Nat → List Char → List Char
  | 0, l => l
  | _, [] => []
  | fuel + 1, c :: rest =>
    if pat ≠ [] && pat.isPrefixOf (c :: rest) then
      match (c :: rest).drop pat.length with
      | '\n' :: t => stripPatternGo pat fuel t
      | after => stripPatternGo pat fuel after
    else c :: stripPatternGo pat fuel rest

/-- The replacement `text.replace(/pat\n?/g, "")`. -/
def stripPattern (pat l : List Char) : List Char := stripPatternGo pat l.length l

/-- The regex match `\{[\s\S]*\}` of `categorizeCall`: greedy, so it spans
from the first `{` to the last `}` of the text, provided the last `}` comes
after the first `{`; otherwise there is no match. -/
def extractJson (l : List Char) : Option (List Char) :=
  match l.findIdx? (fun c => c = '{'), l.reverse.findIdx? (fun c => c = '}') with
  | some i, some jr =>
    let j := l.length - 1 - jr
    if i < j then some ((l.drop i).take (j - i + 1)) else none
  | _, _ => none

/-- Abstraction of the object returned by `JSON.parse` on the extracted text:
only the three fields `categorizeCall` reads, each `none` when the field is
absent, falsy, or of the wrong shape (`categories` missing or not an array;
`summary` missing or not a string). -/
structure ParsedJson where
  categories : Option (List String)
  sentiment : Option String
  summary : Option String
deriving Repr, DecidableEq

/-- The post-parse defaulting applied by `categorizeCall`: empty or missing
`categories` become `["Unknown"]`, unrecognized `sentiment` becomes
`"neutral"`, missing or falsy `summary` becomes `"No summary available"`. -/
def applyDefaults (p : ParsedJson) : CategorizationResult where
  categories :=
    match p.categories with
    | none => ["Unknown"]
    | some cs => if cs.length = 0 then ["Unknown"] else cs
  sentiment :=
    match p.sentiment with
    | none => "neutral"
    | some s => if s = "" ∨ ¬ (s = "positive" ∨ s = "neutral" ∨ s = "negative") then "neutral" else s
  summary :=
    match p.summary with
    | none => "No summary available"
    | some s => if s = "" then "No summary available" else s

/-- The two selectable AI providers. -/
inductive Provider
  | gemini
  | groq
deriving Repr, DecidableEq

/-- The provider's name as interpolated into error messages. -/
def providerName : Provider → String
  | .gemini => "gemini"
  | .groq => "groq"

/-- The `ModelConfig` type of the AI client module. -/
structure ModelConfig where
  provider : Provider
  model : String
deriving Repr, DecidableEq

/-- Model of `getModelConfig`: returns the stored `currentModelConfig`, or the
built-in default `{provider: "groq", model: "llama-3.3-70b-versatile"}` when
nothing was stored (`currentModelConfig === null`). -/
def getModelConfig (currentModelConfig : Option ModelConfig) : ModelConfig :=
  match currentModelConfig with
  | none => ⟨.groq, "llama-3.3-70b-versatile"⟩
  | some c => c

/-- The response-processing pipeline of `categorizeCall` applied to the raw
provider text: `text.trim()`, strip the two fence patterns, `.trim()`. -/
def cleanJson (text : List Char) : List Char :=
  trimChars (stripPattern fencePat (stripPattern fenceJsonPat (trimChars text)))

/-- One attempt of `categorizeCall`'s wrapped operation, given the stored
model configuration, the provider calls' outcomes (`providerText p` = the
text returned by provider `p`, or the thrown transport error) and the
behaviour of `JSON.parse` (`none` = `JSON.parse` throws). -/
def categorizeAttempt (currentModelConfig : Option ModelConfig)
    (providerText : Provider → Except JsError (List Char))
    (jsonParse : List Char → Option ParsedJson) : Except JsError CategorizationResult :=
  let config := getModelConfig currentModelConfig
  match providerText config.provider with
  | .error e => .error e
  | .ok text =>
    match extractJson (cleanJson text) with
    | none =>
      .error ⟨none, "No JSON found in " ++ providerName config.provider ++ " response", none⟩
    | some m =>
      match jsonParse m with
      | none =>
        .error ⟨none, "Invalid JSON in " ++ providerName config.provider ++ " response", none⟩
      | some parsed => .ok (applyDefaults parsed)

/-- Model of `categorizeCall`: the attempt wrapped in `retryWithBackoff(fn, 5, 0)`;
`providerText n` gives the provider responses for the attempt with
`retryCount = n`. -/
def categorizeCall (currentModelConfig : Option ModelConfig)
    (providerText : Nat → Provider → Except JsError (List Char))
    (jsonParse : List Char → Option ParsedJson) :
    List Nat × Except JsError CategorizationResult :=
  retryWithBackoff
    (fun attempt => categorizeAttempt currentModelConfig (providerText attempt) jsonParse) 5 0

/-- Model of `generateReportWithGemini` / `generateSummarizedReport`, reduced to the
provider dispatch they perform (the prompt construction is presentation):
call the configured provider through `retryWithBackoff(fn, 5, 0)`, throwing
`Empty report generated by <provider>` when `report.trim()` is empty. -/
def generateReport (currentModelConfig : Option ModelConfig)
    (providerText : Nat → Provider → Except JsError (List Char)) :
    List Nat × Except JsError (List Char) :=
  retryWithBackoff
    (fun attempt =>
      match providerText attempt (getModelConfig currentModelConfig).provider with
      | .error e => .error e
      | .ok report =>
        if trimChars report = [] then
          .error ⟨none, "Empty report generated by " ++
            providerName (getModelConfig currentModelConfig).provider, none⟩
        else .ok report) 5 0

/-- Global sentiment tally (`sentimentCounts` in `calculateStatistics`). -/
structure SentTally where
  positive : Nat
  neutral : Nat
  negative : Nat
deriving Repr, DecidableEq

/-- The `CallData` record restricted to the fields `calculateStatistics` reads.
`sentiment` is `none` when the field is absent; `duration` is a rational so
that JS number division is modelled exactly. -/
structure CallData where
  categories : List String
  sentiment : Option String
  duration : ℚ
  phone : String
deriving Repr, DecidableEq

/-- ASCII lowering of one character. -/
def charToLower (c : Char) : Char :=
  if 'A' ≤ c ∧ c ≤ 'Z' then Char.ofNat (c.toNat + 32) else c

/-- ASCII model of `String.prototype.toLowerCase` (every value it is compared
against is ASCII). -/
def strToLower (s : String) : String := ⟨s.data.map charToLower⟩

/-- The normalization `call.sentiment?.toLowerCase() || "neutral"`. -/
def normSentiment (s : Option String) : String :=
  match s with
  | none => "neutral"
  | some str => if strToLower str = "" then "neutral" else strToLower str

/-- The three-way sentiment tally update (`positive` / `negative` / else
`neutral`). -/
def bumpSent (s : Option String) (t : SentTally) : SentTally :=
  if normSentiment s = "positive" then ⟨t.positive + 1, t.neutral, t.negative⟩
  else if normSentiment s = "negative" then ⟨t.positive, t.neutral, t.negative + 1⟩
  else ⟨t.positive, t.neutral + 1, t.negative⟩

/-- Per-category accumulator held in the `categoryMap`. -/
structure CatAcc where
  count : Nat
  customers : List String
  sentiment : SentTally
deriving Repr, DecidableEq

/-- Model of `Set.add`: insert the phone number if not already present (JS `Set`
keeps insertion order). -/
def addCustomer (cs : List String) (phone : String) : List String :=
  if cs.contains phone then cs else cs ++ [phone]

/-- One `stat.count++; stat.customers.add(call.phone); sentiment++` update. -/
def bumpCat (call : CallData) (a : CatAcc) : CatAcc :=
  ⟨a.count + 1, addCustomer a.customers call.phone, bumpSent call.sentiment a.sentiment⟩

/-- Update the insertion-ordered category map at key `cat`, creating the
entry at the end on first sight, as a JS `Map` does. -/
def updateCat (m : List (String × CatAcc)) (cat : String) (call : CallData) :
    List (String × CatAcc) :=
  match m with
  | [] => [(cat, bumpCat call ⟨0, [], ⟨0, 0, 0⟩⟩)]
  | (k, v) :: rest =>
    if k = cat then (k, bumpCat call v) :: rest
    else (k, v) :: updateCat rest cat call

/-- The `categoryMap` after the first pass of `calculateStatistics`: for each
record, each of its categories is updated independently (multi-label). -/
def categoryMap (calls : List CallData) : List (String × CatAcc) :=
  calls.foldl (fun m call => call.categories.foldl (fun m cat => updateCat m cat call) m) []

/-- The `CategoryStat` structure of the statistics module. -/
structure CategoryStat where
  category : String
  count : Nat
  percentage : ℚ
  sentiment : SentTally
deriving Repr, DecidableEq

/-- The unsorted `CategoryStat` list
(`Array.from(categoryMap.entries()).map(...)`), in first-seen order. -/
def preStats (calls : List CallData) : List CategoryStat :=
  (categoryMap calls).map (fun kv =>
    ⟨kv.1, kv.2.count, (kv.2.count : ℚ) / (calls.length : ℚ) * 100, kv.2.sentiment⟩)

/-- Stable insertion step for descending-by-count order: the new element goes
after every already-placed element of count ≥ its own.  Folding it left to
right is a stable sort — the behaviour ECMAScript guarantees for
`Array.prototype.sort` with the comparator `(a, b) => b.count - a.count`. -/
def insertDesc (x : CategoryStat) : List CategoryStat → List CategoryStat
  | [] => [x]
  | y :: rest => if x.count ≤ y.count then y :: insertDesc x rest else x :: y :: rest

/-- The stable descending sort `.sort((a, b) => b.count - a.count)`. -/
def sortDesc (l : List CategoryStat) : List CategoryStat :=
  l.foldl (fun acc x => insertDesc x acc) []

/-- The sorted category list of the snapshot. -/
def sortedStats (calls : List CallData) : List CategoryStat :=
  sortDesc (preStats calls)

/-- The `summary` object of `AnalysisData`. -/
structure Summary where
  answerRate : ℚ
  avgDuration : ℚ
  totalDuration : ℚ
  sentimentDistribution : SentTally
  topCategories : List String
deriving Repr, DecidableEq

/-- The `AnalysisData` structure (the `timestamp` field, a wall-clock read, is omitted). -/
structure AnalysisData where
  totalCalls : Nat
  categorizedCalls : Nat
  categories : List CategoryStat
  calls : List CallData
  summary : Summary
deriving Repr, DecidableEq

/-- Shallow embedding of `calculateStatistics` (console logging and the
timestamp omitted). -/
def calculateStatistics (calls : List CallData) : AnalysisData :=
  let categories := sortedStats calls
  let totalDuration := calls.foldl (fun s c => s + c.duration) 0
  let avgDuration := if calls.length > 0 then totalDuration / (calls.length : ℚ) else 0
  let sentimentCounts := calls.foldl (fun t c => bumpSent c.sentiment t) ⟨0, 0, 0⟩
  let topCategories := (categories.take 10).map (fun c => c.category)
  ⟨calls.length, calls.length, categories, calls,
    ⟨100, avgDuration, totalDuration, sentimentCounts, topCategories⟩⟩

/-- The order in which distinct category names are first encountered while
scanning the records (and each record's category list) in input order. -/
def firstSeenCats (calls : List CallData) : List String :=
  calls.foldl
    (fun ks call => call.categories.foldl
      (fun ks c => if ks.contains c then ks else ks ++ [c]) ks) []

/-- One parsed streaming frame, as read by the client's `handleStreamData`:
only the four fields the handler touches.  An absent field is `none`. -/
structure FrameData where
  message : Option String
  type : Option String
  success : Option Bool
  error : Option String
deriving Repr, DecidableEq

/-- JS truthiness of an optional string field: present and non-empty. -/
def truthyStr : Option String → Bool
  | none => false
  | some s => !(s == "")

/-- JS truthiness of an optional boolean field. -/
def truthyBool : Option Bool → Bool
  | none => false
  | some b => b

/-- Observable state of the client stream consumer: the accumulated log
entries (message, type), the captured terminal `result`, plus two ghost
fields — the trace of frames passed to `handleStreamData` (each frame parsed
exactly once appears here exactly once) and the number of frames whose
payload failed to parse and was discarded. -/
structure StreamState where
  logs : List (String × String)
  result : Option FrameData
  handled : List FrameData
  parseFailures : Nat
deriving Repr, DecidableEq

/-- Model of `handleStreamData(data)`: log `data.message` (type `data.type || "info"`;
timestamps omitted), capture `result` when `data.success !== undefined`, and
throw `new Error(data.error)` when an error field accompanies a terminal
record or a failure record.  All mutations happen before the throw, so the
value is the updated state paired with the thrown message, if any; the
caller's per-line `try/catch` absorbs that throw. -/
def handleStreamData (st : StreamState) (d : FrameData) : StreamState × Option String :=
  let st1 : StreamState := { st with handled := st.handled ++ [d] }
  let st2 : StreamState :=
    if truthyStr d.message then
      { st1 with logs := st1.logs ++
          [(d.message.getD "", if truthyStr d.type then d.type.getD "" else "info")] }
    else st1
  let st3 : StreamState := if d.success ≠ none then { st2 with result := some d } else st2
  if d.success ≠ none && truthyStr d.error then (st3, some (d.error.getD ""))
  else if truthyStr d.error && !truthyBool d.success then (st3, some (d.error.getD ""))
  else (st3, none)

/-- The `data: ` frame prefix tested by `trimmedLine.startsWith("data: ")`. -/
def dataPrefix : List Char := "data: ".data

/-- Processing of one complete line by the client's read loop: a line whose
trimmed form starts with `data: ` has its payload (`slice(6).trim()`) parsed
when non-empty.  The per-line `try/catch` wraps both `JSON.parse` and the
`handleStreamData` call, so a payload that fails to parse is counted and
skipped, and a throw from the handler is likewise caught and only logged —
the loop continues either way; other lines are ignored. -/
def processLine (jsonParse : List Char → Option FrameData) (st : StreamState)
    (line : List Char) : StreamState :=
  let t := trimChars line
  if dataPrefix.isPrefixOf t then
    let jsonStr := trimChars (t.drop 6)
    if jsonStr = [] then st
    else
      match jsonParse jsonStr with
      | some d => (handleStreamData st d).1
      | none => { st with parseFailures := st.parseFailures + 1 }
  else st

/-- The split `buffer.split("\n")` on a character sequence. -/
def splitNL : List Char → List (List Char)
  | [] => [[]]
  | c :: rest =>
    if c = '\n' then [] :: splitNL rest
    else
      match splitNL rest with
      | [] => [[c]]
      | l :: ls => (c :: l) :: ls

/-- Sequential processing of a list of lines (the per-line catch means no
line can abort the loop). -/
def processLines (jsonParse : List Char → Option FrameData)
    (st : StreamState) (lines : List (List Char)) : StreamState :=
  lines.foldl (processLine jsonParse) st

/-- The client read loop of `handleAnalyze` without cancellation: reads the
transport chunks in order, keeps the rolling `buffer`, splits complete lines
off (`buffer = lines.pop()`) and processes them; at end-of-stream (`done`)
flushes the trailing buffer when it is not blank. -/
def consumeChunksFrom (jsonParse : List Char → Option FrameData) :
    List (List Char) → List Char → StreamState → StreamState
  | [], buffer, st =>
    if trimChars buffer ≠ [] then processLines jsonParse st (splitNL buffer)
    else st
  | c :: cs, buffer, st =>
    let lines := splitNL (buffer ++ c)
    consumeChunksFrom jsonParse cs (lines.getLastD [])
      (processLines jsonParse st lines.dropLast)

/-- The stream consumer started on a fresh state with an empty buffer. -/
def consumeStream (jsonParse : List Char → Option FrameData)
    (chunks : List (List Char)) : StreamState :=
  consumeChunksFrom jsonParse chunks [] ⟨[], none, [], 0⟩

/-- Outcome of the client read loop with cancellation: `stopped st k` means
the loop observed the abort after fully processing `k` chunks and broke out
(the abort-aware catch then returns silently — no error is surfaced);
`finished` means the stream was consumed to its end.  Line processing cannot
abort the loop (per-line catch); the post-loop validations of `result` are
outside the loop. -/
inductive ClientOutcome
  | finished (st : StreamState)
  | stopped (st : StreamState) (chunksProcessed : Nat)
deriving Repr, DecidableEq

/-- The client read loop of `handleAnalyze` with the abort signal modelled by
`abortFrom`: the index of the first `signal.aborted` check observing `true`
(checks are numbered from 0, two per iteration — one before and one after
`reader.read()`; `i` counts the chunks processed so far). -/
def clientLoop (jsonParse : List Char → Option FrameData) (abortFrom : Nat) :
    List (List Char) → Nat → List Char → StreamState → ClientOutcome
  | remaining, i, buffer, st =>
    if abortFrom ≤ 2 * i then .stopped st i
    else
      match remaining with
      | [] =>
        if abortFrom ≤ 2 * i + 1 then .stopped st i
        else
          .finished (if trimChars buffer ≠ [] then processLines jsonParse st (splitNL buffer)
            else st)
      | c :: cs =>
        if abortFrom ≤ 2 * i + 1 then .stopped st i
        else
          let lines := splitNL (buffer ++ c)
          clientLoop jsonParse abortFrom cs (i + 1) (lines.getLastD [])
            (processLines jsonParse st lines.dropLast)

/-- A 429 failure with retries remaining: one capped exponential delay is
recorded and the wrapper recurses with `retryCount + 1`. -/
theorem retry429_step (fn : Nat → Except JsError α) (e : JsError) (maxRetries n : Nat)
    (hfn : fn n = .error e) (hst : e.status = some 429) (hlt : n < maxRetries) :
    retryWithBackoff fn maxRetries n =
      (min (5000 * 2 ^ n) 90000 :: (retryWithBackoff fn maxRetries (n + 1)).1,
       (retryWithBackoff fn maxRetries (n + 1)).2) := by
  rw [retryWithBackoff.eq_def, hfn]
  simp [hst, hlt]

/-- A 429 failure with retries exhausted: the error is propagated as-is. -/
theorem retry429_exhausted (fn : Nat → Except JsError α) (e : JsError) (maxRetries n : Nat)
    (hfn : fn n = .error e) (hst : e.status = some 429) (hge : ¬ n < maxRetries) :
    retryWithBackoff fn maxRetries n = ([], .error e) := by
  rw [retryWithBackoff.eq_def, hfn]
  simp [hst, hge, isContextLength]

theorem batchAux_ok (outcome : Nat → Except JsError CategorizationResult) (n i : Nat)
    (rest : List Nat) (acc : List CategorizationResult) (k : Nat) (r : CategorizationResult)
    (ho : outcome i = .ok r) :
    batchAux outcome n (i :: rest) acc k = batchAux outcome n rest (acc ++ [r]) (k + 1) := by
  simp [batchAux, ho]

theorem batchAux_err (outcome : Nat → Except JsError CategorizationResult) (n i : Nat)
    (rest : List Nat) (acc : List CategorizationResult) (k : Nat) (e : JsError)
    (ho : outcome i = .error e) (hnf : isFatal e = false) :
    batchAux outcome n (i :: rest) acc k =
      batchAux outcome n rest (acc ++ [fallbackResult e]) (k + 1) := by
  simp [batchAux, ho, hnf]

theorem batchAux_fatal_step (outcome : Nat → Except JsError CategorizationResult) (n i : Nat)
    (rest : List Nat) (acc : List CategorizationResult) (k : Nat) (e : JsError)
    (ho : outcome i = .error e) (hf : isFatal e = true) :
    batchAux outcome n (i :: rest) acc k =
      ⟨acc ++ [fallbackResult e], some ⟨acc.length + 1, n, e.message⟩, k + 1⟩ := by
  simp [batchAux, ho, hf]

/-- Running the loop across a fatal-free block of indices appends one
`itemResult` per item and issues one provider call per item. -/
theorem batchAux_run_append (outcome : Nat → Except JsError CategorizationResult) (n : Nat)
    (l2 : List Nat) :
    ∀ (l1 : List Nat) (acc : List CategorizationResult) (k : Nat),
      (∀ i ∈ l1, isFatalOutcome (outcome i) = false) →
      batchAux outcome n (l1 ++ l2) acc k =
        batchAux outcome n l2 (acc ++ l1.map (fun j => itemResult (outcome j)))
          (k + l1.length) := by
  intro l1
  induction l1 with
  | nil => intro acc k _; simp
  | cons i rest ih =>
    intro acc k hfree
    have hnf : isFatalOutcome (outcome i) = false := hfree i (List.mem_cons_self i rest)
    cases ho : outcome i with
    | ok r =>
      rw [List.cons_append, batchAux_ok outcome n i (rest ++ l2) acc k r ho,
        ih _ _ (fun j hj => hfree j (List.mem_cons_of_mem _ hj))]
      have h1 : (acc ++ [r]) ++ rest.map (fun j => itemResult (outcome j)) =
          acc ++ (i :: rest).map (fun j => itemResult (outcome j)) := by
        simp [ho, itemResult]
      have h2 : k + 1 + rest.length = k + (i :: rest).length := by simp; omega
      rw [h1, h2]
    | error e =>
      have hnf' : isFatal e = false := by
        rw [ho] at hnf; simpa [isFatalOutcome] using hnf
      rw [List.cons_append, batchAux_err outcome n i (rest ++ l2) acc k e ho hnf',
        ih _ _ (fun j hj => hfree j (List.mem_cons_of_mem _ hj))]
      have h1 : (acc ++ [fallbackResult e]) ++ rest.map (fun j => itemResult (outcome j)) =
          acc ++ (i :: rest).map (fun j => itemResult (outcome j)) := by
        simp [ho, itemResult]
      have h2 : k + 1 + rest.length = k + (i :: rest).length := by simp; omega
      rw [h1, h2]

/-- A fatal-free run to completion. -/
theorem batchAux_no_fatal (outcome : Nat → Except JsError CategorizationResult) (n : Nat)
    (hfree : ∀ j, j < n → isFatalOutcome (outcome j) = false) :
    batchCategorizeCallsWithProgress outcome n =
      ⟨(List.range n).map (fun j => itemResult (outcome j)), none, n⟩ := by
  rw [batchCategorizeCallsWithProgress, ← List.append_nil (List.range n),
    batchAux_run_append outcome n [] (List.range n) [] 0
      (fun i hi => hfree i (List.mem_range.mp hi))]
  simp [batchAux]

/-- If the final `fatal` field is `none`, no processed item had a fatal
outcome. -/
theorem batchAux_fatal_none (outcome : Nat → Except JsError CategorizationResult) (n : Nat) :
    ∀ (l : List Nat) (acc : List CategorizationResult) (k : Nat),
      (batchAux outcome n l acc k).fatal = none →
      ∀ i ∈ l, isFatalOutcome (outcome i) = false := by
  intro l
  induction l with
  | nil => intro acc k _ i hi; simp at hi
  | cons j rest ih =>
    intro acc k hnone i hi
    cases ho : outcome j with
    | ok r =>
      rw [batchAux_ok outcome n j rest acc k r ho] at hnone
      rcases List.mem_cons.mp hi with h | h
      · subst h; simp [ho, isFatalOutcome]
      · exact ih _ _ hnone i h
    | error e =>
      by_cases hf : isFatal e = true
      · rw [batchAux_fatal_step outcome n j rest acc k e ho hf] at hnone
        simp at hnone
      · rw [batchAux_err outcome n j rest acc k e ho (by simpa using hf)] at hnone
        rcases List.mem_cons.mp hi with h | h
        · subst h
          simp only [ho, isFatalOutcome]
          simpa using hf
        · exact ih _ _ hnone i h

/-- The internal `results` array only grows: whatever has been accumulated is
a prefix of the final results. -/
theorem batchAux_results_prefix (outcome : Nat → Except JsError CategorizationResult) (n : Nat) :
    ∀ (l : List Nat) (acc : List CategorizationResult) (k : Nat),
      acc <+: (batchAux outcome n l acc k).results := by
  intro l
  induction l with
  | nil => intro acc k; exact List.prefix_refl _
  | cons i rest ih =>
    intro acc k
    cases ho : outcome i with
    | ok r =>
      rw [batchAux_ok outcome n i rest acc k r ho]
      exact (List.prefix_append acc [r]).trans (ih _ _)
    | error e =>
      by_cases hf : isFatal e = true
      · rw [batchAux_fatal_step outcome n i rest acc k e ho hf]
        exact List.prefix_append acc [fallbackResult e]
      · rw [batchAux_err outcome n i rest acc k e ho (by simpa using hf)]
        exact (List.prefix_append acc [fallbackResult e]).trans (ih _ _)

/-- The ghost provider-call counter only grows. -/
theorem batchAux_calls_le (outcome : Nat → Except JsError CategorizationResult) (n : Nat) :
    ∀ (l : List Nat) (acc : List CategorizationResult) (k : Nat),
      k ≤ (batchAux outcome n l acc k).providerCalls := by
  intro l
  induction l with
  | nil => intro acc k; exact Nat.le_refl _
  | cons i rest ih =>
    intro acc k
    cases ho : outcome i with
    | ok r =>
      rw [batchAux_ok outcome n i rest acc k r ho]
      exact le_trans (Nat.le_succ k) (ih _ _)
    | error e =>
      by_cases hf : isFatal e = true
      · rw [batchAux_fatal_step outcome n i rest acc k e ho hf]
        exact Nat.le_succ _
      · rw [batchAux_err outcome n i rest acc k e ho (by simpa using hf)]
        exact le_trans (Nat.le_succ k) (ih _ _)

/-- Looking up inside a prefix. -/
theorem prefix_getElem? {α : Type _} {l1 l2 : List α} (h : l1 <+: l2) {i : Nat}
    (hi : i < l1.length) : l2[i]? = l1[i]? := by
  obtain ⟨t, ht⟩ := h
  rw [← ht, List.getElem?_append]
  simp [hi]

/-- Splitting the index range at the first fatal item. -/
theorem range_split (i n : Nat) (hi : i < n) :
    List.range n = List.range i ++ i :: List.range' (i + 1) (n - i - 1) := by
  have h2 : List.range' 0 i 1 ++ List.range' (0 + 1 * i) (n - i) 1 =
      List.range' 0 (n - i + i) 1 := List.range'_append 0 i (n - i) 1
  simp only [Nat.one_mul, Nat.zero_add] at h2
  have h3 : n - i = (n - i - 1) + 1 := by omega
  rw [h3, List.range'_succ] at h2
  have h4 : n - i - 1 + 1 + i = n := by omega
  rw [h4] at h2
  rw [List.range_eq_range', ← h2, ← List.range_eq_range']

/-- An error carrying no `status` matches none of the retry branches: it is
propagated at once, with no delay and no further invocation. -/
theorem retry_statusless (fn : Nat → Except JsError α) (e : JsError) (maxRetries n : Nat)
    (hfn : fn n = .error e) (hst : e.status = none) :
    retryWithBackoff fn maxRetries n = ([], .error e) := by
  rw [retryWithBackoff.eq_def, hfn]
  simp [hst, isContextLength]

/-- Membership in `insertDesc`. -/
theorem mem_insertDesc {b x : CategoryStat} {l : List CategoryStat} :
    b ∈ insertDesc x l ↔ b = x ∨ b ∈ l := by
  induction l with
  | nil => simp [insertDesc]
  | cons y rest ih =>
    by_cases hc : x.count ≤ y.count <;> simp [insertDesc, hc, ih]
    tauto

/-- Insertion via `insertDesc` preserves descending-by-count sortedness. -/
theorem insertDesc_pairwise (x : CategoryStat) (l : List CategoryStat)
    (h : List.Pairwise (fun a b => b.count ≤ a.count) l) :
    List.Pairwise (fun a b => b.count ≤ a.count) (insertDesc x l) := by
  induction l with
  | nil => simp [insertDesc]
  | cons y rest ih =>
    rw [List.pairwise_cons] at h
    obtain ⟨hy, hrest⟩ := h
    by_cases hc : x.count ≤ y.count
    · rw [insertDesc, if_pos hc, List.pairwise_cons]
      refine ⟨fun b hb => ?_, ih hrest⟩
      rcases mem_insertDesc.mp hb with rfl | hbr
      · exact hc
      · exact hy b hbr
    · rw [insertDesc, if_neg hc, List.pairwise_cons]
      refine ⟨fun b hb => ?_, List.pairwise_cons.mpr ⟨hy, hrest⟩⟩
      rcases List.mem_cons.mp hb with rfl | hbr
      · omega
      · have := hy b hbr
        omega

/-- Sortedness of the fold. -/
theorem sortDesc_pairwise_aux :
    ∀ (l acc : List CategoryStat), List.Pairwise (fun a b => b.count ≤ a.count) acc →
      List.Pairwise (fun a b => b.count ≤ a.count)
        (l.foldl (fun acc x => insertDesc x acc) acc) := by
  intro l
  induction l with
  | nil => intro acc h; simpa using h
  | cons x rest ih =>
    intro acc h
    simp only [List.foldl_cons]
    exact ih (insertDesc x acc) (insertDesc_pairwise x acc h)

/-- Membership in the fold. -/
theorem mem_sortDesc_aux :
    ∀ (l acc : List CategoryStat) (b : CategoryStat),
      b ∈ l.foldl (fun acc x => insertDesc x acc) acc ↔ b ∈ acc ∨ b ∈ l := by
  intro l
  induction l with
  | nil => intro acc b; simp
  | cons x rest ih =>
    intro acc b
    simp only [List.foldl_cons, ih, mem_insertDesc, List.mem_cons]
    tauto

/-- Stability of one insertion: on a sorted accumulator, the new element
lands after every element of equal count. -/
theorem filter_insertDesc (k : Nat) (x : CategoryStat) (l : List CategoryStat)
    (h : List.Pairwise (fun a b => b.count ≤ a.count) l) :
    (insertDesc x l).filter (fun c => c.count == k) =
      (if x.count = k then l.filter (fun c => c.count == k) ++ [x]
       else l.filter (fun c => c.count == k)) := by
  induction l with
  | nil => by_cases hx : x.count = k <;> simp [insertDesc, hx]
  | cons y rest ih =>
    rw [List.pairwise_cons] at h
    obtain ⟨hy, hrest⟩ := h
    by_cases hc : x.count ≤ y.count
    · rw [insertDesc, if_pos hc]
      rw [List.filter_cons, List.filter_cons, ih hrest]
      by_cases hx : x.count = k <;> by_cases hyk : y.count = k <;>
        simp [hx, hyk]
    · rw [insertDesc, if_neg hc]
      have hnone : (y :: rest).filter (fun c => c.count == k) = [] ∨ ¬ x.count = k := by
        by_cases hx : x.count = k
        · refine Or.inl (List.filter_eq_nil_iff.mpr fun b hb => ?_)
          rcases List.mem_cons.mp hb with rfl | hbr
          · simp
            omega
          · have := hy b hbr
            simp
            omega
        · exact Or.inr hx
      by_cases hx : x.count = k
      · rcases hnone with hnil | hx2
        · rw [List.filter_cons, if_pos (by simpa using hx), hnil]
          simp [hnil, hx]
        · exact absurd hx hx2
      · rw [List.filter_cons, if_neg (by simpa using hx)]
        simp [hx]

/-- Stability of the fold. -/
theorem filter_sortDesc_aux (k : Nat) :
    ∀ (l acc : List CategoryStat), List.Pairwise (fun a b => b.count ≤ a.count) acc →
      (l.foldl (fun acc x => insertDesc x acc) acc).filter (fun c => c.count == k) =
        acc.filter (fun c => c.count == k) ++ l.filter (fun c => c.count == k) := by
  intro l
  induction l with
  | nil => intro acc _; simp
  | cons x rest ih =>
    intro acc hacc
    simp only [List.foldl_cons]
    rw [ih (insertDesc x acc) (insertDesc_pairwise x acc hacc), filter_insertDesc k x acc hacc]
    by_cases hx : x.count = k
    · simp [hx, List.filter_cons]
    · simp [hx, List.filter_cons]

/-- Keys of one map update: unchanged when present, appended when new. -/
theorem keys_updateCat (m : List (String × CatAcc)) (cat : String) (call : CallData) :
    (updateCat m cat call).map Prod.fst =
      (if (m.map Prod.fst).contains cat then m.map Prod.fst
       else m.map Prod.fst ++ [cat]) := by
  induction m with
  | nil => simp [updateCat]
  | cons kv rest ih =>
    obtain ⟨k, v⟩ := kv
    by_cases hk : k = cat
    · rw [updateCat]
      simp [hk]
    · rw [updateCat]
      simp only [if_neg hk, List.map_cons]
      rw [ih]
      have hne : ¬ cat = k := fun h => hk h.symm
      by_cases hc : (rest.map Prod.fst).contains cat
      · have hm : cat ∈ rest.map Prod.fst := by simpa using hc
        simp [hm]
      · have hm : ¬ cat ∈ rest.map Prod.fst := by simpa using hc
        simp [hm, hne]

/-- Keys after folding one record's category list. -/
theorem keys_foldCats (call : CallData) :
    ∀ (cats : List String) (m : List (String × CatAcc)),
      ((cats.foldl (fun m cat => updateCat m cat call) m).map Prod.fst) =
        cats.foldl (fun ks c => if ks.contains c then ks else ks ++ [c]) (m.map Prod.fst) := by
  intro cats
  induction cats with
  | nil => intro m; simp
  | cons c rest ih =>
    intro m
    simp only [List.foldl_cons]
    rw [ih (updateCat m c call), keys_updateCat]

/-- The category map's keys are the category names in first-seen order. -/
theorem keys_categoryMap_aux :
    ∀ (calls : List CallData) (m : List (String × CatAcc)),
      ((calls.foldl
          (fun m call => call.categories.foldl (fun m cat => updateCat m cat call) m)
          m).map Prod.fst) =
        calls.foldl
          (fun ks call => call.categories.foldl
            (fun ks c => if ks.contains c then ks else ks ++ [c]) ks) (m.map Prod.fst) := by
  intro calls
  induction calls with
  | nil => intro m; simp
  | cons call rest ih =>
    intro m
    simp only [List.foldl_cons]
    rw [ih, keys_foldCats]

/-- The function `splitNL` never returns an empty list of lines. -/
theorem splitNL_ne_nil (l : List Char) : splitNL l ≠ [] := by
  induction l with
  | nil => simp [splitNL]
  | cons c rest ih =>
    by_cases hc : c = '\n'
    · simp [splitNL, hc]
    · simp only [splitNL, if_neg hc]
      cases h : splitNL rest with
      | nil => simp
      | cons a as => simp

/-- A newline-free text is a single line. -/
theorem splitNL_no_nl {l : List Char} (h : '\n' ∉ l) : splitNL l = [l] := by
  induction l with
  | nil => rfl
  | cons c rest ih =>
    have hc : ¬ c = '\n' := fun hh => h (by simp [hh])
    have hrest : '\n' ∉ rest := fun hh => h (List.mem_cons_of_mem _ hh)
    simp [splitNL, hc, ih hrest]

/-- Unfolding `splitNL` on a leading newline. -/
theorem splitNL_cons_nl (rest : List Char) : splitNL ('\n' :: rest) = [] :: splitNL rest := by
  rw [splitNL.eq_def]
  simp

/-- Unfolding `splitNL` on a leading non-newline character. -/
theorem splitNL_cons_ne {c : Char} (hc : ¬ c = '\n') {rest s : List Char}
    {ss : List (List Char)} (h : splitNL rest = s :: ss) :
    splitNL (c :: rest) = (c :: s) :: ss := by
  rw [splitNL.eq_def]
  simp [hc, h]

/-- The last line produced by `splitNL` contains no newline. -/
theorem splitNL_getLast_no_nl (l : List Char) : '\n' ∉ (splitNL l).getLastD [] := by
  induction l with
  | nil => simp [splitNL]
  | cons c rest ih =>
    obtain ⟨s, ss, h⟩ : ∃ s ss, splitNL rest = s :: ss := by
      cases h : splitNL rest with
      | nil => exact absurd h (splitNL_ne_nil rest)
      | cons s ss => exact ⟨s, ss, rfl⟩
    by_cases hc : c = '\n'
    · subst hc
      rw [splitNL_cons_nl, h, List.getLastD_cons]
      rw [h] at ih
      exact ih
    · rw [splitNL_cons_ne hc h]
      rw [h] at ih
      cases ss with
      | nil =>
        rw [List.getLastD_cons, List.getLastD_nil] at ih ⊢
        intro hm
        rcases List.mem_cons.mp hm with h1 | h1
        · exact hc h1.symm
        · exact ih h1
      | cons u us =>
        rw [List.getLastD_cons] at ih ⊢
        rw [List.getLastD_cons] at ih ⊢
        exact ih

/-- Reading `getLast?.getD` of a non-empty list ignores the default. -/
theorem getLastD_irrel {α : Type _} (u : α) (us : List α) (d1 d2 : α) :
    (u :: us).getLast?.getD d1 = (u :: us).getLast?.getD d2 := by
  rw [List.getLast?_eq_getLast (u :: us) (by simp)]
  rfl

/-- How `split` distributes over concatenation: all complete lines of the
left part, then the line spanning the boundary, then the rest. -/
theorem splitNL_append (a b : List Char) :
    splitNL (a ++ b) =
      (splitNL a).dropLast ++
        ((splitNL a).getLastD [] ++ (splitNL b).headD []) :: (splitNL b).tail := by
  induction a with
  | nil =>
    obtain ⟨x, xs, h⟩ : ∃ x xs, splitNL b = x :: xs := by
      cases h : splitNL b with
      | nil => exact absurd h (splitNL_ne_nil b)
      | cons x xs => exact ⟨x, xs, rfl⟩
    simp [splitNL, h]
  | cons c rest ih =>
    obtain ⟨s, ss, h⟩ : ∃ s ss, splitNL rest = s :: ss := by
      cases h : splitNL rest with
      | nil => exact absurd h (splitNL_ne_nil rest)
      | cons s ss => exact ⟨s, ss, rfl⟩
    by_cases hc : c = '\n'
    · subst hc
      rw [List.cons_append, splitNL_cons_nl, ih, splitNL_cons_nl, h]
      cases ss with
      | nil => simp [List.getLastD_cons]
      | cons u us => simp [List.getLastD_cons]
    · cases ss with
      | nil =>
        have hih : splitNL (rest ++ b) =
            (s ++ (splitNL b).headD []) :: (splitNL b).tail := by
          rw [ih, h]
          simp [List.getLastD_cons]
        rw [List.cons_append, splitNL_cons_ne hc hih, splitNL_cons_ne hc h]
        simp [List.getLastD_cons]
      | cons u us =>
        have hih : splitNL (rest ++ b) =
            s :: ((u :: us).dropLast ++
              ((u :: us).getLastD s ++ (splitNL b).headD []) :: (splitNL b).tail) := by
          rw [ih, h]
          simp [List.getLastD_cons]
          exact getLastD_irrel u us [] s
        rw [List.cons_append, splitNL_cons_ne hc hih, splitNL_cons_ne hc h]
        simp [List.getLastD_cons]
        exact getLastD_irrel u us s []

/-- A line that trims to nothing is ignored by the line processor. -/
theorem processLine_blank (jsonParse : List Char → Option FrameData) (st : StreamState)
    (line : List Char) (h : trimChars line = []) :
    processLine jsonParse st line = st := by
  simp [processLine, h, dataPrefix, List.isPrefixOf]

/-- Processing lines in two batches is processing their concatenation. -/
theorem processLines_append (jsonParse : List Char → Option FrameData) (st : StreamState)
    (l1 l2 : List (List Char)) :
    processLines jsonParse st (l1 ++ l2) =
      processLines jsonParse (processLines jsonParse st l1) l2 := by
  simp [processLines, List.foldl_append]

/-- The read loop's chunked, buffered consumption equals one pass over the
lines of the whole transmitted text. -/
theorem consumeChunksFrom_eq (jsonParse : List Char → Option FrameData) :
    ∀ (cs : List (List Char)) (buffer : List Char) (st : StreamState), '\n' ∉ buffer →
      consumeChunksFrom jsonParse cs buffer st =
        processLines jsonParse st (splitNL (buffer ++ cs.flatten)) := by
  intro cs
  induction cs with
  | nil =>
    intro buffer st hb
    rw [consumeChunksFrom, List.flatten_nil, List.append_nil, splitNL_no_nl hb]
    by_cases ht : trimChars buffer = []
    · rw [if_neg ?hcond]
      case hcond => simp [ht]
      have hline := processLine_blank jsonParse st buffer ht
      simp [processLines, hline]
    · rw [if_pos (by simpa using ht)]
  | cons c cs ih =>
    intro buffer st hb
    have hlast := splitNL_getLast_no_nl (buffer ++ c)
    have hsplit : splitNL (buffer ++ c ++ cs.flatten) =
        (splitNL (buffer ++ c)).dropLast ++
          splitNL ((splitNL (buffer ++ c)).getLastD [] ++ cs.flatten) := by
      rw [splitNL_append (buffer ++ c) cs.flatten,
        splitNL_append ((splitNL (buffer ++ c)).getLastD []) cs.flatten,
        splitNL_no_nl hlast]
      simp
    rw [consumeChunksFrom, List.flatten_cons, ← List.append_assoc, hsplit,
      processLines_append]
    exact ih ((splitNL (buffer ++ c)).getLastD [])
      (processLines jsonParse st (splitNL (buffer ++ c)).dropLast) hlast

/-- Once the abort signal is set, the client read loop stops at the next
check: it breaks out (no error) having processed at most `abortFrom / 2`
chunks. -/
theorem clientLoop_stops (jsonParse : List Char → Option FrameData) (abortFrom : Nat) :
    ∀ (remaining : List (List Char)) (i : Nat) (buffer : List Char) (st : StreamState),
      abortFrom ≤ 2 * (i + remaining.length) + 1 → 2 * i ≤ abortFrom →
      ∃ st2 k, clientLoop jsonParse abortFrom remaining i buffer st = .stopped st2 k ∧
        2 * k ≤ abortFrom := by
  intro remaining
  induction remaining with
  | nil =>
    intro i buffer st hab hge
    by_cases h1 : abortFrom ≤ 2 * i
    · exact ⟨st, i, by rw [clientLoop.eq_def]; simp [h1], hge⟩
    · have h2 : abortFrom ≤ 2 * i + 1 := by
        simp at hab
        omega
      exact ⟨st, i, by rw [clientLoop.eq_def]; simp [h1, h2], hge⟩
  | cons c cs ih =>
    intro i buffer st hab hge
    by_cases h1 : abortFrom ≤ 2 * i
    · exact ⟨st, i, by rw [clientLoop.eq_def]; simp [h1], hge⟩
    · by_cases h2 : abortFrom ≤ 2 * i + 1
      · exact ⟨st, i, by rw [clientLoop.eq_def]; simp [h1, h2], by omega⟩
      · obtain ⟨st3, k, hrec, hk⟩ := ih (i + 1) ((splitNL (buffer ++ c)).getLastD [])
          (processLines jsonParse st (splitNL (buffer ++ c)).dropLast)
          (by simp at hab ⊢; omega) (by omega)
        refine ⟨st3, k, ?_, hk⟩
        rw [clientLoop.eq_def]
        simp only [if_neg h1, if_neg h2]
        exact hrec

/-- Each processed batch item corresponds to exactly one appended result and
one provider call. -/
theorem batchAux_results_calls (outcome : Nat → Except JsError CategorizationResult)
    (n : Nat) :
    ∀ (l : List Nat) (acc : List CategorizationResult) (k : Nat),
      ∃ t, (batchAux outcome n l acc k).results = acc ++ t ∧
        (batchAux outcome n l acc k).providerCalls = k + t.length := by
  intro l
  induction l with
  | nil => intro acc k; exact ⟨[], by simp [batchAux], by simp [batchAux]⟩
  | cons i rest ih =>
    intro acc k
    cases ho : outcome i with
    | ok r =>
      obtain ⟨t, h1, h2⟩ := ih (acc ++ [r]) (k + 1)
      refine ⟨r :: t, ?_, ?_⟩
      · rw [batchAux_ok outcome n i rest acc k r ho, h1]
        simp
      · rw [batchAux_ok outcome n i rest acc k r ho, h2]
        simp
        omega
    | error e =>
      by_cases hf : isFatal e = true
      · refine ⟨[fallbackResult e], ?_, ?_⟩
        · rw [batchAux_fatal_step outcome n i rest acc k e ho hf]
        · rw [batchAux_fatal_step outcome n i rest acc k e ho hf]
          simp
      · obtain ⟨t, h1, h2⟩ := ih (acc ++ [fallbackResult e]) (k + 1)
        refine ⟨fallbackResult e :: t, ?_, ?_⟩
        · rw [batchAux_err outcome n i rest acc k e ho (by simpa using hf), h1]
          simp
        · rw [batchAux_err outcome n i rest acc k e ho (by simpa using hf), h2]
          simp
          omega

end AiCall

section Claims
open AiCall

/-- C2: sustained 429 failures with default `maxRetries = 5` produce exactly
the delays `min (5000 * 2 ^ n) 90000` ms before retry `n` for `n = 0..4`,
namely `[5000, 10000, 20000, 40000, 80000]` ms, and after the 6th consecutive
failure (5 retries exhausted) the last error is propagated instead of
retrying. -/
theorem retry429_default (fn : Nat → Except JsError α) (err : Nat → JsError)
    (hfn : ∀ n, fn n = .error (err n)) (hst : ∀ n, (err n).status = some 429) :
    retryWithBackoff fn 5 0 =
      ((List.range 5).map (fun n => min (5000 * 2 ^ n) 90000), .error (err 5)) ∧
    (List.range 5).map (fun n => min (5000 * 2 ^ n) 90000) =
      [5000, 10000, 20000, 40000, 80000] := by
  have h5 := retry429_exhausted fn (err 5) 5 5 (hfn 5) (hst 5) (by omega)
  have h4 := retry429_step fn (err 4) 5 4 (hfn 4) (hst 4) (by omega)
  have h3 := retry429_step fn (err 3) 5 3 (hfn 3) (hst 3) (by omega)
  have h2 := retry429_step fn (err 2) 5 2 (hfn 2) (hst 2) (by omega)
  have h1 := retry429_step fn (err 1) 5 1 (hfn 1) (hst 1) (by omega)
  have h0 := retry429_step fn (err 0) 5 0 (hfn 0) (hst 0) (by omega)
  rw [h5] at h4
  rw [h4] at h3
  rw [h3] at h2
  rw [h2] at h1
  rw [h1] at h0
  refine ⟨?_, by norm_num [List.range_succ]⟩
  rw [h0]
  norm_num [List.range_succ]

/-- Witness for C2 at a concrete always-429 operation. -/
theorem retry429_default_witness :
    retryWithBackoff (α := Unit) (fun _ => .error ⟨some 429, "rate limit", none⟩) 5 0 =
      ((List.range 5).map (fun n => min (5000 * 2 ^ n) 90000),
        .error ⟨some 429, "rate limit", none⟩) :=
  (retry429_default (fun _ => .error ⟨some 429, "rate limit", none⟩)
    (fun _ => ⟨some 429, "rate limit", none⟩) (fun _ => rfl) (fun _ => rfl)).1

/-- C1: for every batch run that completes without a fatal abort, the result
list has length exactly `n`, and the entry at every position `i` is the
`itemResult` (successful result or per-item fallback) for the input item at
position `i`. -/
theorem batchOrderPreserving (outcome : Nat → Except JsError CategorizationResult) (n : Nat)
    (hno : (batchCategorizeCallsWithProgress outcome n).fatal = none) :
    (batchCategorizeCallsWithProgress outcome n).results.length = n ∧
    ∀ i, i < n → (batchCategorizeCallsWithProgress outcome n).results[i]? =
      some (itemResult (outcome i)) := by
  rw [batchCategorizeCallsWithProgress] at hno
  have hfree := batchAux_fatal_none outcome n (List.range n) [] 0 hno
  rw [batchAux_no_fatal outcome n (fun j hj => hfree j (List.mem_range.mpr hj))]
  refine ⟨by simp, fun i hi => ?_⟩
  simp [List.getElem?_map, List.getElem?_range, hi]

/-- Witness for C1: a two-item batch whose first item succeeds and whose
second fails non-fatally still yields two results in input order. -/
theorem batchOrderPreserving_witness :
    (batchCategorizeCallsWithProgress
        (fun i => if i = 0 then .ok ⟨["A"], "positive", "s"⟩ else .error ⟨some 500, "boom", none⟩)
        2).results.length = 2 ∧
    (batchCategorizeCallsWithProgress
        (fun i => if i = 0 then .ok ⟨["A"], "positive", "s"⟩ else .error ⟨some 500, "boom", none⟩)
        2).results[1]? =
      some (itemResult (.error ⟨some 500, "boom", none⟩)) := by
  have h := batchOrderPreserving
    (fun i => if i = 0 then .ok ⟨["A"], "positive", "s"⟩ else .error ⟨some 500, "boom", none⟩)
    2 (by decide)
  exact ⟨h.1, h.2 1 (by omega)⟩

/-- C3 counterexample: in a single-item batch whose item fails with the fatal
rate-limit-exhaustion error, the propagated error carries `processed = 1`
(`results.length`, which already includes the fallback pushed for the failing
item), although the number of successfully processed items is `0`. -/
theorem batchFatalCount_counterexample :
    (batchCategorizeCallsWithProgress
        (fun _ => .error ⟨some 429, "rate limit exceeded", none⟩) 1).fatal =
      some ⟨1, 1, "rate limit exceeded"⟩ ∧
    successCount (batchCategorizeCallsWithProgress
        (fun _ => .error ⟨some 429, "rate limit exceeded", none⟩) 1).results = 0 ∧
    (1 : Nat) ≠ 0 := by
  decide

/-- C3 (amended): if item `i` is the first to fail with a fatal error
(status 429, message containing "exceeded"), the batch aborts immediately
after recording the fallback for item `i`: no item past `i` is processed, no
further provider call is issued, and the propagated error carries the count
`i + 1` of items processed so far (including the failing item's fallback),
the batch size, and the provider error's message.  Moreover this is the only
condition producing a fatal abort. -/
theorem batchFatalAbort (outcome : Nat → Except JsError CategorizationResult) (n i : Nat)
    (e : JsError) (hi : i < n) (ho : outcome i = .error e) (hf : isFatal e = true)
    (hpre : ∀ j, j < i → isFatalOutcome (outcome j) = false) :
    (batchCategorizeCallsWithProgress outcome n =
      ⟨(List.range i).map (fun j => itemResult (outcome j)) ++ [fallbackResult e],
       some ⟨i + 1, n, e.message⟩, i + 1⟩) ∧
    (∀ g m, (batchCategorizeCallsWithProgress g m).fatal ≠ none →
      ∃ j, j < m ∧ isFatalOutcome (g j) = true) := by
  constructor
  · rw [batchCategorizeCallsWithProgress, range_split i n hi,
      batchAux_run_append outcome n (i :: List.range' (i + 1) (n - i - 1)) (List.range i) [] 0
        (fun j hj => hpre j (List.mem_range.mp hj)),
      batchAux_fatal_step outcome n i (List.range' (i + 1) (n - i - 1)) _ _ e ho hf]
    simp
  · intro g m hne
    by_contra hex
    have hfree : ∀ j, j < m → isFatalOutcome (g j) = false := by
      intro j hj
      cases h : isFatalOutcome (g j) with
      | false => rfl
      | true => exact absurd ⟨j, hj, h⟩ hex
    rw [batchAux_no_fatal g m hfree] at hne
    simp at hne

/-- Witness for C3 (amended): a two-item batch whose first item succeeds and
whose second fails fatally aborts with `processed = 2`. -/
theorem batchFatalAbort_witness :
    batchCategorizeCallsWithProgress
        (fun i => if i = 0 then .ok ⟨["A"], "positive", "s"⟩
          else .error ⟨some 429, "rate limit exceeded", none⟩) 2 =
      ⟨[⟨["A"], "positive", "s"⟩, fallbackResult ⟨some 429, "rate limit exceeded", none⟩],
       some ⟨2, 2, "rate limit exceeded"⟩, 2⟩ := by
  have h := (batchFatalAbort
    (fun i => if i = 0 then .ok ⟨["A"], "positive", "s"⟩
      else .error ⟨some 429, "rate limit exceeded", none⟩)
    2 1 ⟨some 429, "rate limit exceeded", none⟩ (by omega) rfl (by decide)
    (by decide)).1
  simpa using h

/-- C4: if item `i` fails with a non-fatal error `e` (and the batch reaches
item `i`), the result recorded at position `i` is exactly the fallback
`{categories: ["UNCATEGORIZED - API ERROR"], sentiment: "neutral", summary:
"Failed to analyze: " ++ message}` whose summary contains the failure
message, and, when `i + 1 < n`, item `i + 1` is still processed (its result
is recorded and another provider call is issued). -/
theorem batchPerItemFallback (outcome : Nat → Except JsError CategorizationResult) (n i : Nat)
    (e : JsError) (hi : i < n) (ho : outcome i = .error e) (hnf : isFatal e = false)
    (hpre : ∀ j, j < i → isFatalOutcome (outcome j) = false) :
    (batchCategorizeCallsWithProgress outcome n).results[i]? = some (fallbackResult e) ∧
    fallbackResult e = ⟨["UNCATEGORIZED - API ERROR"], "neutral",
      "Failed to analyze: " ++ (if e.message = "" then "Unknown error" else e.message)⟩ ∧
    includesStr (fallbackResult e).summary e.message = true ∧
    (i + 1 < n →
      (batchCategorizeCallsWithProgress outcome n).results[i + 1]? =
        some (itemResult (outcome (i + 1))) ∧
      i + 2 ≤ (batchCategorizeCallsWithProgress outcome n).providerCalls) := by
  have hchar : ∀ rest, i + 1 < n → rest = List.range' (i + 1) (n - i - 1) →
      rest = (i + 1) :: List.range' (i + 2) (n - i - 2) := by
    intro rest hi1 hrest
    have h2 : n - i - 1 = (n - i - 2) + 1 := by omega
    rw [hrest, h2, List.range'_succ]
  have hbatch : batchCategorizeCallsWithProgress outcome n =
      batchAux outcome n (List.range' (i + 1) (n - i - 1))
        ((List.range i).map (fun j => itemResult (outcome j)) ++ [fallbackResult e])
        (i + 1) := by
    rw [batchCategorizeCallsWithProgress, range_split i n hi,
      batchAux_run_append outcome n (i :: List.range' (i + 1) (n - i - 1)) (List.range i) [] 0
        (fun j hj => hpre j (List.mem_range.mp hj)),
      batchAux_err outcome n i (List.range' (i + 1) (n - i - 1)) _ _ e ho hnf]
    simp
  set acc1 := (List.range i).map (fun j => itemResult (outcome j)) ++ [fallbackResult e]
    with hacc1
  have hlen1 : acc1.length = i + 1 := by simp [hacc1]
  have hpre1 : acc1 <+: (batchCategorizeCallsWithProgress outcome n).results := by
    rw [hbatch]
    exact batchAux_results_prefix outcome n _ acc1 (i + 1)
  refine ⟨?_, rfl, ?_, ?_⟩
  · rw [prefix_getElem? hpre1 (by omega), hacc1]
    simp [List.getElem?_append]
  · rw [fallbackResult]
    by_cases hm : e.message = ""
    · simp [includesStr, hm]
    · simp only [hm, if_false, includesStr, decide_eq_true_eq]
      exact (List.suffix_append _ _).isInfix
  · intro hi1
    have hbatch2 : batchCategorizeCallsWithProgress outcome n =
        batchAux outcome n ((i + 1) :: List.range' (i + 2) (n - i - 2)) acc1 (i + 1) := by
      rw [hbatch, hchar _ hi1 rfl]
    have hchar2 : acc1 ++ [itemResult (outcome (i + 1))] <+:
        (batchCategorizeCallsWithProgress outcome n).results ∧
        i + 2 ≤ (batchCategorizeCallsWithProgress outcome n).providerCalls := by
      cases ho2 : outcome (i + 1) with
      | ok r =>
        rw [hbatch2, batchAux_ok outcome n (i + 1) _ acc1 (i + 1) r ho2]
        constructor
        · simpa [itemResult, ho2] using
            batchAux_results_prefix outcome n (List.range' (i + 2) (n - i - 2))
              (acc1 ++ [r]) (i + 2)
        · exact batchAux_calls_le outcome n (List.range' (i + 2) (n - i - 2)) _ (i + 2)
      | error e2 =>
        by_cases hf2 : isFatal e2 = true
        · rw [hbatch2, batchAux_fatal_step outcome n (i + 1) _ acc1 (i + 1) e2 ho2 hf2]
          exact ⟨by simp [itemResult, ho2], by simp⟩
        · rw [hbatch2, batchAux_err outcome n (i + 1) _ acc1 (i + 1) e2 ho2
            (by simpa using hf2)]
          constructor
          · simpa [itemResult, ho2] using
              batchAux_results_prefix outcome n (List.range' (i + 2) (n - i - 2))
                (acc1 ++ [fallbackResult e2]) (i + 2)
          · exact batchAux_calls_le outcome n (List.range' (i + 2) (n - i - 2)) _ (i + 2)
    refine ⟨?_, hchar2.2⟩
    rw [prefix_getElem? hchar2.1 (by simp [hlen1])]
    simp [List.getElem?_append, hlen1]

/-- Witness for C4: in a two-item batch whose first item fails non-fatally,
position 0 gets the fallback and item 1 is still processed. -/
theorem batchPerItemFallback_witness :
    (batchCategorizeCallsWithProgress
        (fun i => if i = 0 then .error ⟨some 500, "boom", none⟩
          else .ok ⟨["A"], "positive", "s"⟩) 2).results[0]? =
      some (fallbackResult ⟨some 500, "boom", none⟩) ∧
    (batchCategorizeCallsWithProgress
        (fun i => if i = 0 then .error ⟨some 500, "boom", none⟩
          else .ok ⟨["A"], "positive", "s"⟩) 2).results[1]? =
      some (itemResult (.ok ⟨["A"], "positive", "s"⟩)) := by
  have h := batchPerItemFallback
    (fun i => if i = 0 then .error ⟨some 500, "boom", none⟩ else .ok ⟨["A"], "positive", "s"⟩)
    2 0 ⟨some 500, "boom", none⟩ (by omega) rfl (by decide) (by omega)
  exact ⟨h.1, (h.2.2.2 (by omega)).1⟩

/-- C5: when the provider's response text yields no `{...}` JSON object, or
the extracted JSON fails to parse, the attempt fails with a status-less
error, and the backoff wrapper does not retry it: `categorizeCall` returns
with an empty delay list (zero additional delay, zero further provider
calls) and the error — which is not the fatal batch-abort class — propagates
to the orchestrator's per-item fallback path. -/
theorem malformedResponseNotRetried (cfg : Option ModelConfig)
    (providerText : Nat → Provider → Except JsError (List Char))
    (jsonParse : List Char → Option ParsedJson) (text : List Char)
    (hp : providerText 0 (getModelConfig cfg).provider = .ok text)
    (hbad : extractJson (cleanJson text) = none ∨
      ∃ m, extractJson (cleanJson text) = some m ∧ jsonParse m = none) :
    ∃ e : JsError,
      categorizeCall cfg providerText jsonParse = ([], .error e) ∧
      e.status = none ∧ isFatal e = false ∧
      (e.message =
          "No JSON found in " ++ providerName (getModelConfig cfg).provider ++ " response" ∨
       e.message =
          "Invalid JSON in " ++ providerName (getModelConfig cfg).provider ++ " response") := by
  have hatt : ∃ e : JsError,
      categorizeAttempt cfg (providerText 0) jsonParse = .error e ∧ e.status = none ∧
      (e.message =
          "No JSON found in " ++ providerName (getModelConfig cfg).provider ++ " response" ∨
       e.message =
          "Invalid JSON in " ++ providerName (getModelConfig cfg).provider ++ " response") := by
    rcases hbad with hnone | ⟨m, hm, hparse⟩
    · refine ⟨⟨none, "No JSON found in " ++ providerName (getModelConfig cfg).provider ++
          " response", none⟩, ?_, rfl, Or.inl rfl⟩
      simp [categorizeAttempt, hp, hnone]
    · refine ⟨⟨none, "Invalid JSON in " ++ providerName (getModelConfig cfg).provider ++
          " response", none⟩, ?_, rfl, Or.inr rfl⟩
      simp [categorizeAttempt, hp, hm, hparse]
  obtain ⟨e, hatt, hst, hmsg⟩ := hatt
  refine ⟨e, ?_, hst, by simp [isFatal, hst], hmsg⟩
  rw [categorizeCall]
  exact retry_statusless _ e 5 0 hatt hst

/-- Witness for C5: a brace-free provider response fails once, is not
retried, and yields the status-less "No JSON found" error. -/
theorem malformedResponseNotRetried_witness :
    ∃ e : JsError,
      categorizeCall none (fun _ _ => .ok "hello".data) (fun _ => none) = ([], .error e) ∧
      e.status = none ∧ isFatal e = false ∧
      (e.message = "No JSON found in " ++ providerName (getModelConfig none).provider ++
          " response" ∨
       e.message = "Invalid JSON in " ++ providerName (getModelConfig none).provider ++
          " response") :=
  malformedResponseNotRetried none (fun _ _ => .ok "hello".data) (fun _ => none)
    "hello".data rfl (Or.inl (by decide))

/-- C6: on the two-record example, category A has count 2 and percentage 100,
category B count 1 and percentage 50, totalDuration is 150, avgDuration 75
and the global sentiment distribution is {positive 1, neutral 0, negative 1};
and in general every category's percentage is count / totalCalls × 100 (so
multi-label records make percentages non-normalized across categories). -/
theorem statsExample :
    ((calculateStatistics
        [⟨["A", "B"], some "positive", 100, ""⟩,
         ⟨["A"], some "negative", 50, ""⟩]).categories.map
      (fun c => (c.category, c.count, c.percentage)) =
      [("A", 2, (100 : ℚ)), ("B", 1, (50 : ℚ))]) ∧
    (calculateStatistics
        [⟨["A", "B"], some "positive", 100, ""⟩,
         ⟨["A"], some "negative", 50, ""⟩]).summary.totalDuration = 150 ∧
    (calculateStatistics
        [⟨["A", "B"], some "positive", 100, ""⟩,
         ⟨["A"], some "negative", 50, ""⟩]).summary.avgDuration = 75 ∧
    (calculateStatistics
        [⟨["A", "B"], some "positive", 100, ""⟩,
         ⟨["A"], some "negative", 50, ""⟩]).summary.sentimentDistribution = ⟨1, 0, 1⟩ ∧
    (∀ (calls : List CallData), ∀ c ∈ (calculateStatistics calls).categories,
      c.percentage = (c.count : ℚ) / (calls.length : ℚ) * 100) := by
  refine ⟨?_, ?_, ?_, ?_, fun calls c hc => ?_⟩
  · simp +decide [calculateStatistics, sortedStats, preStats, categoryMap, updateCat,
      bumpCat, bumpSent, normSentiment, strToLower, charToLower, addCustomer, sortDesc,
      insertDesc]
    norm_num
  · norm_num [calculateStatistics]
  · norm_num [calculateStatistics]
  · simp +decide [calculateStatistics, bumpSent, normSentiment, strToLower, charToLower]
  · have hmem : c ∈ preStats calls := by
      have := (mem_sortDesc_aux (preStats calls) [] c).mp
        (by simpa [calculateStatistics, sortedStats, sortDesc] using hc)
      simpa using this
    obtain ⟨kv, _, rfl⟩ := List.mem_map.mp hmem
    rfl

/-- C7: for every input list, the snapshot's category list is sorted
descending by count; ties keep the pre-sort order, which is the order in
which the category names were first encountered scanning the records in
input order; `topCategories` is exactly the names of the first 10 sorted
entries; and avgDuration is totalDuration / totalCalls, or 0 when
totalCalls = 0. -/
theorem statsSortedStable (calls : List CallData) :
    List.Pairwise (fun a b => b.count ≤ a.count) (calculateStatistics calls).categories ∧
    (∀ k : Nat, (calculateStatistics calls).categories.filter (fun c => c.count == k) =
      (preStats calls).filter (fun c => c.count == k)) ∧
    (preStats calls).map (fun c => c.category) = firstSeenCats calls ∧
    (calculateStatistics calls).summary.topCategories =
      ((calculateStatistics calls).categories.take 10).map (fun c => c.category) ∧
    (calculateStatistics calls).summary.avgDuration =
      (if calls.length = 0 then 0 else
        (calculateStatistics calls).summary.totalDuration / (calls.length : ℚ)) := by
  have hcat : (calculateStatistics calls).categories = sortDesc (preStats calls) := rfl
  refine ⟨?_, ?_, ?_, ?_, ?_⟩
  · rw [hcat, sortDesc]
    exact sortDesc_pairwise_aux (preStats calls) [] (by simp)
  · intro k
    rw [hcat, sortDesc, filter_sortDesc_aux k (preStats calls) [] (by simp)]
    simp
  · rw [preStats, List.map_map]
    have : (fun c => CategoryStat.category c) ∘
        (fun kv : String × CatAcc =>
          (⟨kv.1, kv.2.count, (kv.2.count : ℚ) / (calls.length : ℚ) * 100, kv.2.sentiment⟩ :
            CategoryStat)) = Prod.fst := rfl
    rw [this, categoryMap, keys_categoryMap_aux calls [], firstSeenCats]
    rfl
  · rfl
  · by_cases h : calls.length = 0
    · simp [calculateStatistics, h]
    · simp [calculateStatistics, h, Nat.pos_of_ne_zero h]

/-- C8: the stream consumer's output depends only on the concatenation of
the transport chunks: however a `data: <json>` frame is split across chunks,
it is reassembled through the rolling buffer and handed to the parser
exactly once, in order, including a complete frame still sitting in the
trailing buffer when the channel closes (each parsed frame appears once in
the `handled` trace of the resulting state); and a `data:` line whose
payload fails to parse is merely counted and skipped — the stream goes on
(second conjunct). -/
theorem streamReassembly (jsonParse : List Char → Option FrameData)
    (chunks : List (List Char)) (st : StreamState) (line payload : List Char)
    (hline : trimChars line = dataPrefix ++ payload)
    (hpay : trimChars payload ≠ [])
    (hfail : jsonParse (trimChars payload) = none) :
    consumeStream jsonParse chunks =
      processLines jsonParse ⟨[], none, [], 0⟩ (splitNL chunks.flatten) ∧
    processLine jsonParse st line =
      { st with parseFailures := st.parseFailures + 1 } := by
  constructor
  · rw [consumeStream, consumeChunksFrom_eq jsonParse chunks [] _ (by simp),
      List.nil_append]
  · rw [processLine]
    have hpre : dataPrefix.isPrefixOf (trimChars line) = true := by
      rw [hline]
      exact List.isPrefixOf_iff_prefix.mpr (List.prefix_append dataPrefix payload)
    have hdrop : (trimChars line).drop 6 = payload := by
      rw [hline]
      have h6 : 6 = dataPrefix.length := rfl
      rw [h6, List.drop_left]
    simp only [hpre, if_true, hdrop]
    rw [if_neg (by simpa using hpay), hfail]

/-- Witness for C8: a frame split as `data: {"` + `x"}` followed by a
newline, with a parser rejecting the payload: the consumer equals the
single-pass run and the bad payload only bumps the failure counter. -/
theorem streamReassembly_witness :
    consumeStream (fun _ => none) ["data: x".data, "y\n".data] =
      processLines (fun _ => none) ⟨[], none, [], 0⟩
        (splitNL (["data: x".data, "y\n".data].flatten)) ∧
    processLine (fun _ => none) ⟨[], none, [], 0⟩ "data: xy".data =
      ⟨[], none, [], 1⟩ := by
  have h := streamReassembly (fun _ => none) ["data: x".data, "y\n".data]
    ⟨[], none, [], 0⟩ "data: xy".data "xy".data (by decide) (by decide) rfl
  exact ⟨h.1, h.2⟩

/-- C9 counterexample: cancellation is client-side only.  The abort observed
at the very first check (`abortFrom = 0`) stops the client before it
processes any chunk, yet the server-side orchestrator — whose embedding,
like the source function, has no cancellation input at all — still issues
one provider call per item: 2 calls for a 2-item batch, not 0, refuting
"once cancelled, no further provider-facing calls are emitted". -/
theorem cancellationCounterexample :
    clientLoop (fun _ => none) 0 [['x']] 0 [] ⟨[], none, [], 0⟩ =
      .stopped ⟨[], none, [], 0⟩ 0 ∧
    (batchCategorizeCallsWithProgress
        (fun _ => .ok ⟨["A"], "neutral", "s"⟩) 2).providerCalls = 2 ∧
    ¬ (2 : Nat) ≤ 0 := by
  refine ⟨by rw [clientLoop.eq_def]; simp, by decide, by omega⟩

/-- C9 (amended): cancellation is observed only in the client's reading
loop, before and after each transport read: when the signal is set before
the stream ends, the client stops within one read — it has processed at most
`abortFrom / 2` chunks — and surfaces no error, whatever frames the stream
carried (the stop is a clean break followed by a silent return; handler
throws are absorbed by the per-line catch).  The server-side orchestrator
receives no cancellation signal: it performs exactly one provider call per
processed item regardless (second conjunct), so provider-facing calls
continue after a client cancellation. -/
theorem cancellationClientSide (jsonParse : List Char → Option FrameData)
    (abortFrom : Nat) (chunks : List (List Char))
    (hab : abortFrom ≤ 2 * chunks.length + 1) :
    (∃ st k, clientLoop jsonParse abortFrom chunks 0 [] ⟨[], none, [], 0⟩ =
      .stopped st k ∧ 2 * k ≤ abortFrom) ∧
    (∀ (outcome : Nat → Except JsError CategorizationResult) (n : Nat),
      (batchCategorizeCallsWithProgress outcome n).providerCalls =
        (batchCategorizeCallsWithProgress outcome n).results.length) := by
  constructor
  · exact clientLoop_stops jsonParse abortFrom chunks 0 [] ⟨[], none, [], 0⟩
      (by simpa using hab) (by omega)
  · intro outcome n
    obtain ⟨t, h1, h2⟩ := batchAux_results_calls outcome n (List.range n) [] 0
    rw [batchCategorizeCallsWithProgress, h1, h2]
    simp

/-- Witness for C9 (amended) at a concrete aborted run. -/
theorem cancellationClientSide_witness :
    (∃ st k, clientLoop (fun _ => none) 1 [['x']] 0 [] ⟨[], none, [], 0⟩ =
      .stopped st k ∧ 2 * k ≤ 1) ∧
    (∀ (outcome : Nat → Except JsError CategorizationResult) (n : Nat),
      (batchCategorizeCallsWithProgress outcome n).providerCalls =
        (batchCategorizeCallsWithProgress outcome n).results.length) :=
  cancellationClientSide (fun _ => none) 1 [['x']] (by omega)

/-- C10: when no provider/model configuration has been stored
(`currentModelConfig === null`), `getModelConfig` silently returns the
built-in default `{provider: "groq", model: "llama-3.3-70b-versatile"}`, and
both classification and report generation behave exactly as if that default
had been set — they run, rather than failing. -/
theorem defaultModelConfig :
    getModelConfig none = ⟨Provider.groq, "llama-3.3-70b-versatile"⟩ ∧
    (∀ (providerText : Nat → Provider → Except JsError (List Char))
        (jsonParse : List Char → Option ParsedJson),
      categorizeCall none providerText jsonParse =
        categorizeCall (some ⟨Provider.groq, "llama-3.3-70b-versatile"⟩)
          providerText jsonParse) ∧
    (∀ (providerText : Nat → Provider → Except JsError (List Char)),
      generateReport none providerText =
        generateReport (some ⟨Provider.groq, "llama-3.3-70b-versatile"⟩) providerText) :=
  ⟨rfl, fun _ _ => rfl, fun _ => rfl⟩

end Claims
